import Mathlib

/-!
Verification of the transaction canonical-encoding and signature-indexing
core of the flow-go-sdk repository (`transaction.go`).

Modelling conventions:
* Go byte slices are `List Nat` (each entry a byte value); machine integers
  are `Nat` (for `uint64`/`uint`) and `Int` (for `int`), with explicit
  `% 2^64` wrapping where Go performs a conversion.
* Methods that mutate the receiver are modelled as functions returning the
  updated `Transaction`; `payloadCanonicalForm`, which both mutates
  `t.Arguments` (trailing-newline stripping) and can panic (index out of
  range on an empty argument), returns `Option (Transaction × _)`, `none`
  standing for the panic.
* The external RLP stream (`github.com/ethereum/go-ethereum/rlp`) is
  modelled at the level of its item trees (`RLPItem`): a stream position
  holds either a byte string or a nested list.  The byte-level grammar is
  the library's injective serialization of these trees and is out of scope
  per the spec; "kind is a list" is constructor inspection, end-of-list
  (`rlp.EOL`) is exhaustion of a list's elements, and the decoder's
  `Reset` + whole-struct decode is re-interpreting the outer item.
  Unsigned integers travel as their minimal big-endian byte strings
  (`natBE`), and decoding enforces the library's canonical-integer rules
  (at most 8 bytes, no leading zero byte).
-/

namespace Flow

/-- Modelled from the spec: `Address` (defined outside the provided source
files) is an account address; its byte serialization (`Address.Bytes` /
`BytesToAddress`) is modelled as the identity on the byte list. -/
abbrev Address := List Nat

/-- Modelled from the spec: the zero/empty sentinel address (`EmptyAddress`,
defined outside the provided source files): eight zero bytes. -/
def EmptyAddress : Address := List.replicate 8 0

/-- Modelled from the spec: `Identifier` (a 32-byte block identifier,
defined outside the provided source files) as its byte list. -/
abbrev Identifier := List Nat

/-- `ProposalKey` from the source: address, key index (Go `int`),
sequence number (Go `uint64`). -/
structure ProposalKey where
  Address : Address
  KeyIndex : Int
  SequenceNumber : Nat
deriving DecidableEq

/-- `TransactionSignature` from the source: address, signer index
(Go `int`, `-1` meaning "not a recognized signer"), key index, raw
signature bytes. -/
structure TransactionSignature where
  Address : Address
  SignerIndex : Int
  KeyIndex : Int
  Signature : List Nat
deriving DecidableEq

/-- The `Transaction` aggregate from the source. -/
structure Transaction where
  Script : List Nat
  Arguments : List (List Nat)
  ReferenceBlockID : Identifier
  GasLimit : Nat
  ProposalKey : ProposalKey
  Payer : Address
  Authorizers : List Address
  PayloadSignatures : List TransactionSignature
  EnvelopeSignatures : List TransactionSignature
deriving DecidableEq

/-- `NewTransaction` from the source: zero value with the default gas
limit. -/
def NewTransaction : Transaction :=
  { Script := []
    Arguments := []
    ReferenceBlockID := List.replicate 32 0
    GasLimit := 9999
    ProposalKey := { Address := EmptyAddress, KeyIndex := 0, SequenceNumber := 0 }
    Payer := EmptyAddress
    Authorizers := []
    PayloadSignatures := []
    EnvelopeSignatures := [] }

/-- One `addSigner` step of `Transaction.signerList`: append the address
unless it has been seen already (the Go code keeps a separate `seen` set;
membership in the accumulated list is equivalent). -/
def addSigner (acc : List Address) (a : Address) : List Address :=
  if a ∈ acc then acc else acc ++ [a]

/-- `Transaction.signerList` from the source: proposer (if not the
sentinel), then payer (if not the sentinel), then each authorizer in
order, deduplicated by first occurrence.  Note the source applies the
sentinel check only to the proposer and the payer, not to authorizers. -/
def signerList (t : Transaction) : List Address :=
  let s1 := if t.ProposalKey.Address ≠ EmptyAddress then addSigner [] t.ProposalKey.Address else []
  let s2 := if t.Payer ≠ EmptyAddress then addSigner s1 t.Payer else s1
  t.Authorizers.foldl addSigner s2

/-- Index of the first occurrence of an address in a list. -/
def firstIdx (a : Address) : List Address → Option Nat
  | [] => none
  | b :: l => if b = a then some 0 else (firstIdx a l).map (· + 1)

/-- `Transaction.signerMap` lookup from the source, as a function: the
index of an address in `signerList`, or `-1` when absent (the Go map is
built by inserting each signer at its position; since `signerList` has no
duplicates the first index below is the unique one). -/
def lookupSignerIndex (t : Transaction) (a : Address) : Int :=
  match firstIdx a (signerList t) with
  | some i => (i : Int)
  | none => -1

/-- The role sequence the spec describes: proposer (when not the
sentinel), then payer (when not the sentinel), then the authorizers in
insertion order, duplicates not yet removed. -/
def rolesList (t : Transaction) : List Address :=
  (if t.ProposalKey.Address ≠ EmptyAddress then [t.ProposalKey.Address] else [])
    ++ (if t.Payer ≠ EmptyAddress then [t.Payer] else [])
    ++ t.Authorizers

/-- Spec-side first-occurrence deduplication, following the spec's words:
each address appears exactly once, at the position of its first
occurrence; `seen` holds the addresses already emitted. -/
def dedupFirstAux : List Address → List Address → List Address
  | [], _ => []
  | a :: l, seen =>
    if a ∈ seen then dedupFirstAux l seen else a :: dedupFirstAux l (seen ++ [a])

/-- Spec-side deduplicated list: keep the first occurrence of every
address, in order. -/
def dedupFirst (l : List Address) : List Address := dedupFirstAux l []

theorem foldl_addSigner_eq (xs : List Address) :
    ∀ acc : List Address, xs.foldl addSigner acc = acc ++ dedupFirstAux xs acc := by
  induction xs with
  | nil => intro acc; simp [dedupFirstAux]
  | cons a l ih =>
    intro acc
    by_cases h : a ∈ acc
    · simp [List.foldl_cons, addSigner, dedupFirstAux, h, ih acc]
    · simp only [List.foldl_cons, addSigner, dedupFirstAux, h, if_neg, if_false]
      rw [ih (acc ++ [a])]
      simp

theorem signerList_eq_dedupFirst (t : Transaction) :
    signerList t = dedupFirst (rolesList t) := by
  unfold signerList rolesList dedupFirst
  by_cases hp : t.ProposalKey.Address ≠ EmptyAddress <;>
    by_cases hq : t.Payer ≠ EmptyAddress <;>
      simp only [hp, hq, if_true, if_false, ite_true, ite_false] <;>
        rw [foldl_addSigner_eq] <;>
          by_cases hpq : t.Payer ∈ addSigner [] t.ProposalKey.Address <;>
            simp_all [addSigner, dedupFirstAux, List.nil_append]

theorem dedupFirstAux_nodup :
    ∀ (l seen : List Address), (dedupFirstAux l seen).Nodup ∧
      ∀ a ∈ dedupFirstAux l seen, a ∉ seen := by
  intro l
  induction l with
  | nil => intro seen; simp [dedupFirstAux]
  | cons a l ih =>
    intro seen
    by_cases h : a ∈ seen
    · simpa [dedupFirstAux, h] using ih seen
    · have ihs := ih (seen ++ [a])
      refine ⟨?_, ?_⟩
      · simp only [dedupFirstAux, h, if_false, ite_false, List.nodup_cons]
        constructor
        · intro hmem
          have := ihs.2 a hmem
          simp at this
        · exact ihs.1
      · intro b hb
        simp only [dedupFirstAux, h, if_false, ite_false, List.mem_cons] at hb
        rcases hb with rfl | hb
        · exact h
        · have := ihs.2 b hb
          intro hbseen
          exact this (by simp [hbseen])

theorem mem_dedupFirstAux :
    ∀ (l seen : List Address) (a : Address), a ∈ l → a ∉ seen →
      a ∈ dedupFirstAux l seen := by
  intro l
  induction l with
  | nil => intro seen a h; simp at h
  | cons b l ih =>
    intro seen a hal hseen
    by_cases hb : b ∈ seen
    · rcases List.mem_cons.mp hal with rfl | hal
      · exact absurd hb hseen
      · simpa [dedupFirstAux, hb] using ih seen a hal hseen
    · simp only [dedupFirstAux, hb, if_false, ite_false, List.mem_cons]
      rcases List.mem_cons.mp hal with rfl | hal
      · exact Or.inl rfl
      · by_cases hab : a = b
        · exact Or.inl hab
        · exact Or.inr (ih (seen ++ [b]) a hal (by simp [hseen, hab]))

theorem signerList_nodup (t : Transaction) : (signerList t).Nodup := by
  rw [signerList_eq_dedupFirst]
  exact (dedupFirstAux_nodup (rolesList t) []).1

/-- `signerList` reads only the proposer address, the payer and the
authorizer list. -/
theorem signerList_pure (t s : Transaction)
    (h1 : s.ProposalKey.Address = t.ProposalKey.Address)
    (h2 : s.Payer = t.Payer) (h3 : s.Authorizers = t.Authorizers) :
    signerList s = signerList t := by
  unfold signerList
  rw [h1, h2, h3]

/-- When the proposer is not the sentinel, it is the head of the signer
list. -/
theorem signerList_head (t : Transaction) (h : t.ProposalKey.Address ≠ EmptyAddress) :
    ∃ l, signerList t = t.ProposalKey.Address :: l := by
  rw [signerList_eq_dedupFirst]
  unfold rolesList dedupFirst
  rw [if_pos h]
  refine ⟨dedupFirstAux ((if t.Payer ≠ EmptyAddress then [t.Payer] else []) ++ t.Authorizers)
    [t.ProposalKey.Address], ?_⟩
  simp [dedupFirstAux]

theorem lookupSignerIndex_proposer (t : Transaction)
    (h : t.ProposalKey.Address ≠ EmptyAddress) :
    lookupSignerIndex t t.ProposalKey.Address = 0 := by
  obtain ⟨l, hl⟩ := signerList_head t h
  unfold lookupSignerIndex
  rw [hl]
  simp [firstIdx]

/-- The ordering the source's `compareSignatures` sorts by: signer index
ascending, key index breaking ties. -/
def sigLE (a b : TransactionSignature) : Prop :=
  a.SignerIndex < b.SignerIndex ∨
    (a.SignerIndex = b.SignerIndex ∧ a.KeyIndex ≤ b.KeyIndex)

instance : DecidableRel sigLE := fun a b => by
  unfold sigLE; infer_instance

instance : IsTotal TransactionSignature sigLE :=
  ⟨by intro a b; unfold sigLE; omega⟩

instance : IsTrans TransactionSignature sigLE :=
  ⟨by intro a b c; unfold sigLE; omega⟩

/-- The sort performed by `sort.Slice(sigs, compareSignatures(sigs))`.
The Go sort is unstable, so the order of entries tied on
`(SignerIndex, KeyIndex)` is unspecified there; the model fixes one
correct sort.  Every statement proved below either concerns sortedness
itself or evaluates the sort on tie-free inputs, where all correct sorts
agree. -/
def sortSignatures (l : List TransactionSignature) : List TransactionSignature :=
  List.insertionSort sigLE l

/-- `Transaction.createSignature` from the source: look the address up in
the signer map, defaulting to `-1`. -/
def createSignature (t : Transaction) (address : Address) (keyIndex : Int)
    (sig : List Nat) : TransactionSignature :=
  { Address := address
    SignerIndex := lookupSignerIndex t address
    KeyIndex := keyIndex
    Signature := sig }

/-- `Transaction.refreshSignerIndex` from the source: recompute every
stored signature's signer index from the current signer map (note: no
re-sorting happens here). -/
def refreshSignerIndex (t : Transaction) : Transaction :=
  { t with
    PayloadSignatures :=
      t.PayloadSignatures.map fun s => { s with SignerIndex := lookupSignerIndex t s.Address }
    EnvelopeSignatures :=
      t.EnvelopeSignatures.map fun s => { s with SignerIndex := lookupSignerIndex t s.Address } }

/-- `Transaction.AddPayloadSignature` from the source: create, append,
sort, then refresh indices. -/
def AddPayloadSignature (t : Transaction) (address : Address) (keyIndex : Int)
    (sig : List Nat) : Transaction :=
  let s := createSignature t address keyIndex sig
  refreshSignerIndex { t with PayloadSignatures := sortSignatures (t.PayloadSignatures ++ [s]) }

/-- `Transaction.AddEnvelopeSignature` from the source. -/
def AddEnvelopeSignature (t : Transaction) (address : Address) (keyIndex : Int)
    (sig : List Nat) : Transaction :=
  let s := createSignature t address keyIndex sig
  refreshSignerIndex { t with EnvelopeSignatures := sortSignatures (t.EnvelopeSignatures ++ [s]) }

/-- `Transaction.SetProposalKey` from the source. -/
def SetProposalKey (t : Transaction) (address : Address) (keyIndex : Int)
    (sequenceNum : Nat) : Transaction :=
  refreshSignerIndex
    { t with ProposalKey := { Address := address, KeyIndex := keyIndex, SequenceNumber := sequenceNum } }

/-- `Transaction.SetPayer` from the source. -/
def SetPayer (t : Transaction) (address : Address) : Transaction :=
  refreshSignerIndex { t with Payer := address }

/-- `Transaction.AddAuthorizer` from the source. -/
def AddAuthorizer (t : Transaction) (address : Address) : Transaction :=
  refreshSignerIndex { t with Authorizers := t.Authorizers ++ [address] }

/-- Every stored signature's cached signer index agrees with the current
signer list — the invariant each mutator re-establishes. -/
def freshIndices (t : Transaction) : Prop :=
  (∀ s ∈ t.PayloadSignatures, s.SignerIndex = lookupSignerIndex t s.Address) ∧
    (∀ s ∈ t.EnvelopeSignatures, s.SignerIndex = lookupSignerIndex t s.Address)

instance (t : Transaction) : Decidable (freshIndices t) := by
  unfold freshIndices; infer_instance

theorem refresh_preserves_fresh_list (t : Transaction)
    (l : List TransactionSignature)
    (h : ∀ s ∈ l, s.SignerIndex = lookupSignerIndex t s.Address) :
    (l.map fun s => { s with SignerIndex := lookupSignerIndex t s.Address }) = l := by
  induction l with
  | nil => rfl
  | cons a l ih =>
    have ha := h a (List.mem_cons_self a l)
    simp only [List.map_cons, ih fun s hs => h s (List.mem_cons_of_mem a hs)]
    congr 1
    cases a
    simp_all

/-- Go's `uint(i)` conversion on a 64-bit platform: wrap modulo `2^64`. -/
def uintOfInt (i : Int) : Nat := (i.emod (2 ^ 64)).toNat

/-- Go's `int(u)` conversion of a `uint` on a 64-bit platform. -/
def intOfUint (n : Nat) : Int :=
  if n < 2 ^ 63 then (n : Int) else (n : Int) - 2 ^ 64

theorem intOfUint_uintOfInt (i : Int) (h1 : -(2 ^ 63) ≤ i) (h2 : i < 2 ^ 63) :
    intOfUint (uintOfInt i) = i := by
  unfold uintOfInt intOfUint
  have e1 : (2:Int) ^ 64 = 18446744073709551616 := by norm_num
  have e2 : (2:Nat) ^ 63 = 9223372036854775808 := by norm_num
  rw [e1, e2] at *
  have hm : i.emod 18446744073709551616 = i % 18446744073709551616 := rfl
  rw [hm]
  split <;> omega

/-- `payloadCanonicalForm` struct from the source. -/
structure payloadCanonicalForm where
  Script : List Nat
  Arguments : List (List Nat)
  ReferenceBlockID : List Nat
  GasLimit : Nat
  ProposalKeyAddress : List Nat
  ProposalKeyIndex : Nat
  ProposalKeySequenceNumber : Nat
  Payer : List Nat
  Authorizers : List (List Nat)
deriving DecidableEq

/-- `transactionSignatureCanonicalForm` struct from the source. -/
structure transactionSignatureCanonicalForm where
  SignerIndex : Nat
  KeyIndex : Nat
  Signature : List Nat
deriving DecidableEq

/-- `transactionCanonicalForm` struct from the source (the envelope form
is the same with no envelope signatures). -/
structure transactionCanonicalForm where
  Payload : payloadCanonicalForm
  PayloadSignatures : List transactionSignatureCanonicalForm
  EnvelopeSignatures : List transactionSignatureCanonicalForm
deriving DecidableEq

/-- `TransactionSignature.canonicalForm` from the source: the Go `uint`
conversions wrap a negative index modulo `2^64` — there is no
negativity check. -/
def TransactionSignature.canonicalForm (s : TransactionSignature) :
    transactionSignatureCanonicalForm :=
  { SignerIndex := uintOfInt s.SignerIndex
    KeyIndex := uintOfInt s.KeyIndex
    Signature := s.Signature }

/-- `transactionSignatureFromCanonicalForm` from the source; the Go
struct literal leaves `Address` at its zero value. -/
def transactionSignatureFromCanonicalForm
    (v : transactionSignatureCanonicalForm) : TransactionSignature :=
  { Address := EmptyAddress
    SignerIndex := intOfUint v.SignerIndex
    KeyIndex := intOfUint v.KeyIndex
    Signature := v.Signature }

/-- `signaturesList.canonicalForm` from the source. -/
def signaturesListCanonicalForm (l : List TransactionSignature) :
    List transactionSignatureCanonicalForm :=
  l.map TransactionSignature.canonicalForm

/-- One step of the argument workaround in `payloadCanonicalForm`:
`arg[len(arg)-1]` panics on an empty argument (`none`); otherwise one
trailing byte `10` is stripped. -/
def stripArg (arg : List Nat) : Option (List Nat) :=
  match arg.getLast? with
  | none => none
  | some b => if b = 10 then some arg.dropLast else some arg

/-- Option-valued `List.map`: the whole result is `none` as soon as one
element fails (the Go loop panics at the first empty argument). -/
def mapMOpt (f : α → Option β) : List α → Option (List β)
  | [] => some []
  | a :: l =>
    match f a, mapMOpt f l with
    | some b, some bs => some (b :: bs)
    | _, _ => none

theorem mapMOpt_roundtrip {f : β → Option α} {g : α → β} (l : List α)
    (h : ∀ x ∈ l, f (g x) = some x) : mapMOpt f (l.map g) = some l := by
  induction l with
  | nil => rfl
  | cons a l ih =>
    simp only [List.map_cons, mapMOpt, h a (List.mem_cons_self a l),
      ih fun x hx => h x (List.mem_cons_of_mem a hx)]

theorem mapMOpt_eq_none {f : α → Option β} (l : List α) (a : α)
    (ha : a ∈ l) (hfa : f a = none) : mapMOpt f l = none := by
  induction l with
  | nil => simp at ha
  | cons b l ih =>
    rcases List.mem_cons.mp ha with rfl | ha
    · simp [mapMOpt, hfa]
    · cases hfb : f b <;> simp [mapMOpt, hfb, ih ha]

theorem mapMOpt_isSome {f : α → Option β} (l : List α)
    (h : ∀ a ∈ l, (f a).isSome) : (mapMOpt f l).isSome := by
  induction l with
  | nil => simp [mapMOpt]
  | cons b l ih =>
    have hb := h b (List.mem_cons_self b l)
    have hl := ih fun a ha => h a (List.mem_cons_of_mem b ha)
    cases hfb : f b
    · rw [hfb] at hb; simp at hb
    · cases hrest : mapMOpt f l
      · rw [hrest] at hl; simp at hl
      · simp [mapMOpt, hfb, hrest]

/-- `Transaction.payloadCanonicalForm` from the source.  The Go method
mutates `t.Arguments` in place (the newline workaround) and panics on an
empty argument; the model returns the updated transaction together with
the form, and `none` for the panic. -/
def payloadCanonicalFormM (t : Transaction) :
    Option (Transaction × payloadCanonicalForm) :=
  match mapMOpt stripArg t.Arguments with
  | none => none
  | some args =>
    some ({ t with Arguments := args },
      { Script := t.Script
        Arguments := args
        ReferenceBlockID := t.ReferenceBlockID
        GasLimit := t.GasLimit
        ProposalKeyAddress := t.ProposalKey.Address
        ProposalKeyIndex := uintOfInt t.ProposalKey.KeyIndex
        ProposalKeySequenceNumber := t.ProposalKey.SequenceNumber
        Payer := t.Payer
        Authorizers := t.Authorizers })

/-- `Transaction.envelopeCanonicalForm` from the source, with the same
mutation/panic conventions. -/
def envelopeCanonicalFormM (t : Transaction) :
    Option (Transaction × (payloadCanonicalForm × List transactionSignatureCanonicalForm)) :=
  match payloadCanonicalFormM t with
  | none => none
  | some (t1, p) => some (t1, (p, signaturesListCanonicalForm t.PayloadSignatures))

/-- Fuel-driven big-endian digit expansion (structural recursion so that
the kernel can evaluate it; the fuel is always sufficient when it starts
at `n`). -/
def natBEAux : Nat → Nat → List Nat
  | _, 0 => []
  | 0, _ + 1 => []
  | f + 1, n + 1 => natBEAux f ((n + 1) / 256) ++ [(n + 1) % 256]

/-- Minimal big-endian byte representation of an unsigned integer, as the
RLP library produces for `uint`/`uint64` fields (zero encodes as the
empty string). -/
def natBE (n : Nat) : List Nat := natBEAux n n

theorem natBEAux_fuel (fuel : Nat) :
    ∀ fuel2 n : Nat, n ≤ fuel → n ≤ fuel2 → natBEAux fuel n = natBEAux fuel2 n := by
  induction fuel with
  | zero =>
    intro fuel2 n h1 _
    have : n = 0 := Nat.le_zero.mp h1
    subst this
    cases fuel2 <;> rfl
  | succ f ih =>
    intro fuel2 n h1 h2
    cases n with
    | zero => cases fuel2 <;> rfl
    | succ m =>
      cases fuel2 with
      | zero => omega
      | succ g =>
        show natBEAux f ((m + 1) / 256) ++ _ = natBEAux g ((m + 1) / 256) ++ _
        have hd : (m + 1) / 256 < m + 1 := Nat.div_lt_self (by omega) (by decide)
        rw [ih g ((m + 1) / 256) (by omega) (by omega)]

theorem natBE_eq (n : Nat) :
    natBE n = if n = 0 then [] else natBE (n / 256) ++ [n % 256] := by
  unfold natBE
  cases n with
  | zero => rfl
  | succ m =>
    rw [if_neg (Nat.succ_ne_zero m)]
    show natBEAux m ((m + 1) / 256) ++ _ = natBEAux ((m + 1) / 256) ((m + 1) / 256) ++ _
    have hd : (m + 1) / 256 < m + 1 := Nat.div_lt_self (by omega) (by decide)
    rw [natBEAux_fuel m ((m + 1) / 256) ((m + 1) / 256) (by omega) (by omega)]

/-- Big-endian byte-string to unsigned integer. -/
def beNat (l : List Nat) : Nat := l.foldl (fun acc d => acc * 256 + d) 0

theorem beNat_append_digit (l : List Nat) (d : Nat) :
    beNat (l ++ [d]) = beNat l * 256 + d := by
  unfold beNat
  rw [List.foldl_append]
  rfl

theorem beNat_natBE (n : Nat) : beNat (natBE n) = n := by
  induction n using Nat.strong_induction_on with
  | _ n ih =>
    rw [natBE_eq]
    by_cases h : n = 0
    · simp [h, beNat]
    · rw [if_neg h, beNat_append_digit,
        ih (n / 256) (Nat.div_lt_self (Nat.pos_of_ne_zero h) (by decide))]
      omega

theorem natBE_eq_nil (n : Nat) : natBE n = [] ↔ n = 0 := by
  constructor
  · intro h
    by_contra hn
    rw [natBE_eq, if_neg hn] at h
    simp at h
  · intro h; rw [h, natBE_eq]; simp

theorem natBE_length (k : Nat) : ∀ n : Nat, n < 256 ^ k → (natBE n).length ≤ k := by
  induction k with
  | zero =>
    intro n hn
    have : n = 0 := by omega
    simp [this, natBE_eq]
  | succ k ih =>
    intro n hn
    by_cases h : n = 0
    · simp [h, natBE_eq]
    · rw [natBE_eq, if_neg h]
      have hdiv : n / 256 < 256 ^ k := by
        rw [pow_succ, mul_comm] at hn
        exact Nat.div_lt_of_lt_mul hn
      have := ih (n / 256) hdiv
      simp only [List.length_append, List.length_cons, List.length_nil]
      omega

theorem natBE_no_leading_zero (n : Nat) : (natBE n).head? ≠ some 0 := by
  induction n using Nat.strong_induction_on with
  | _ n ih =>
    rw [natBE_eq]
    by_cases h : n = 0
    · simp [h]
    · rw [if_neg h]
      cases hh : natBE (n / 256) with
      | nil =>
        have hz : n / 256 = 0 := (natBE_eq_nil _).mp hh
        rw [List.nil_append]
        intro hc
        rw [List.head?_cons, Option.some_inj] at hc
        have hlt : n < 256 := by omega
        rw [Nat.mod_eq_of_lt hlt] at hc
        exact h hc
      | cons a l =>
        have := ih (n / 256) (Nat.div_lt_self (Nat.pos_of_ne_zero h) (by decide))
        rw [hh] at this
        simpa [hh] using this

/-- An RLP stream position: either a byte string or a nested list.  The
byte-level serialization of these trees belongs to the external RLP
library and is injective per its contract; stream-kind introspection is
constructor inspection here. -/
inductive RLPItem where
  | str : List Nat → RLPItem
  | list : List RLPItem → RLPItem

mutual

def RLPItem.deq : (a b : RLPItem) → Decidable (a = b)
  | .str x, .str y =>
    match decEq x y with
    | isTrue h => isTrue (by rw [h])
    | isFalse h => isFalse (by intro hc; cases hc; exact h rfl)
  | .str _, .list _ => isFalse (by intro h; cases h)
  | .list _, .str _ => isFalse (by intro h; cases h)
  | .list xs, .list ys =>
    match RLPItem.deqList xs ys with
    | isTrue h => isTrue (by rw [h])
    | isFalse h => isFalse (by intro hc; cases hc; exact h rfl)

def RLPItem.deqList : (a b : List RLPItem) → Decidable (a = b)
  | [], [] => isTrue rfl
  | [], _ :: _ => isFalse (by intro h; cases h)
  | _ :: _, [] => isFalse (by intro h; cases h)
  | x :: xs, y :: ys =>
    match RLPItem.deq x y, RLPItem.deqList xs ys with
    | isTrue h1, isTrue h2 => isTrue (by rw [h1, h2])
    | isFalse h1, _ => isFalse (by intro hc; cases hc; exact h1 rfl)
    | _, isFalse h2 => isFalse (by intro hc; cases hc; exact h2 rfl)

end

instance : DecidableEq RLPItem := RLPItem.deq

/-- The RLP item the library produces for a `payloadCanonicalForm` value:
one list holding the nine fields in declaration order. -/
def payloadItem (p : payloadCanonicalForm) : RLPItem :=
  .list
    [ .str p.Script
    , .list (p.Arguments.map RLPItem.str)
    , .str p.ReferenceBlockID
    , .str (natBE p.GasLimit)
    , .str p.ProposalKeyAddress
    , .str (natBE p.ProposalKeyIndex)
    , .str (natBE p.ProposalKeySequenceNumber)
    , .str p.Payer
    , .list (p.Authorizers.map RLPItem.str) ]

/-- The RLP item for a `transactionSignatureCanonicalForm` value. -/
def sigItem (s : transactionSignatureCanonicalForm) : RLPItem :=
  .list [.str (natBE s.SignerIndex), .str (natBE s.KeyIndex), .str s.Signature]

/-- `Transaction.PayloadMessage` from the source: the canonical payload
form, RLP-encoded.  The returned transaction carries the in-place
argument mutation; `none` is the panic on an empty argument. -/
def PayloadMessage (t : Transaction) : Option (Transaction × RLPItem) :=
  match payloadCanonicalFormM t with
  | none => none
  | some (t1, p) => some (t1, payloadItem p)

/-- `Transaction.EnvelopeMessage` from the source: payload plus the
payload-signature sequence. -/
def EnvelopeMessage (t : Transaction) : Option (Transaction × RLPItem) :=
  match payloadCanonicalFormM t with
  | none => none
  | some (t1, p) =>
    some (t1, .list [payloadItem p,
      .list ((signaturesListCanonicalForm t.PayloadSignatures).map sigItem)])

/-- `Transaction.Encode` from the source: payload, payload signatures and
envelope signatures. -/
def Encode (t : Transaction) : Option (Transaction × RLPItem) :=
  match payloadCanonicalFormM t with
  | none => none
  | some (t1, p) =>
    some (t1, .list [payloadItem p,
      .list ((signaturesListCanonicalForm t.PayloadSignatures).map sigItem),
      .list ((signaturesListCanonicalForm t.EnvelopeSignatures).map sigItem)])

/-- Decoding a `[]byte` field: the stream position must hold a string. -/
def decodeStr : RLPItem → Option (List Nat)
  | .str bs => some bs
  | .list _ => none

/-- Decoding a `[][]byte` field: a list each of whose elements is a
string. -/
def decodeStrList : RLPItem → Option (List (List Nat))
  | .str _ => none
  | .list items => mapMOpt decodeStr items

/-- Decoding a `uint`/`uint64` field: a byte string of at most 8 bytes
with no leading zero (the library's canonical-integer rule). -/
def decodeUintItem : RLPItem → Option Nat
  | .list _ => none
  | .str bs =>
    if bs.length ≤ 8 ∧ bs.head? ≠ some 0 then some (beNat bs) else none

/-- Decoding a `payloadCanonicalForm` struct: a list of exactly its nine
fields, each of the required shape. -/
def decodePayloadItemCF : RLPItem → Option payloadCanonicalForm
  | .list [a1, a2, a3, a4, a5, a6, a7, a8, a9] =>
    match decodeStr a1, decodeStrList a2, decodeStr a3, decodeUintItem a4,
        decodeStr a5, decodeUintItem a6, decodeUintItem a7, decodeStr a8,
        decodeStrList a9 with
    | some script, some args, some ref, some gas, some pka, some pki,
        some pksn, some payer, some auths =>
      some
        { Script := script
          Arguments := args
          ReferenceBlockID := ref
          GasLimit := gas
          ProposalKeyAddress := pka
          ProposalKeyIndex := pki
          ProposalKeySequenceNumber := pksn
          Payer := payer
          Authorizers := auths }
    | _, _, _, _, _, _, _, _, _ => none
  | _ => none

/-- Decoding a `transactionSignatureCanonicalForm` struct: a list of its
three fields. -/
def decodeSigCF : RLPItem → Option transactionSignatureCanonicalForm
  | .list [a1, a2, a3] =>
    match decodeUintItem a1, decodeUintItem a2, decodeStr a3 with
    | some si, some ki, some sig =>
      some { SignerIndex := si, KeyIndex := ki, Signature := sig }
    | _, _, _ => none
  | _ => none

/-- Decoding a `[]transactionSignatureCanonicalForm` field. -/
def decodeSigListCF : RLPItem → Option (List transactionSignatureCanonicalForm)
  | .str _ => none
  | .list items => mapMOpt decodeSigCF items

/-- `decodeTransaction` from the source, on the item tree.  The outer
position must be a list; an empty outer list means `Kind` hits
end-of-list, an error.  If the first inner element is not a list the
whole buffer is re-read as a bare payload form (`Reset` + struct decode);
otherwise payload and payload signatures are mandatory, end-of-input
after them yields the envelope form, and a further element is decoded as
the envelope signatures (anything after it is never read). -/
def decodeTransactionCF : RLPItem → Option transactionCanonicalForm
  | .str _ => none
  | .list [] => none
  | .list (first :: rest) =>
    match first with
    | .str _ =>
      match decodePayloadItemCF (.list (first :: rest)) with
      | none => none
      | some p => some { Payload := p, PayloadSignatures := [], EnvelopeSignatures := [] }
    | .list inner =>
      match decodePayloadItemCF (.list inner) with
      | none => none
      | some p =>
        match rest with
        | [] => none
        | sigsIt :: rest2 =>
          match decodeSigListCF sigsIt with
          | none => none
          | some psigs =>
            match rest2 with
            | [] =>
              some { Payload := p, PayloadSignatures := psigs, EnvelopeSignatures := [] }
            | envIt :: _ =>
              match decodeSigListCF envIt with
              | none => none
              | some esigs =>
                some { Payload := p, PayloadSignatures := psigs, EnvelopeSignatures := esigs }

/-- Go slice indexing `signers[i]` with an `int` index: `none` models the
out-of-range panic. -/
def goIndex (l : List Address) (i : Int) : Option Address :=
  if h : 0 ≤ i ∧ i.toNat < l.length then some (l.get ⟨i.toNat, h.2⟩) else none

/-- The result of `DecodeTransaction`: a transaction, a returned decode
error, or a runtime panic (which the Go function does not catch). -/
inductive DResult where
  | ok : Transaction → DResult
  | err : DResult
  | panic : DResult
deriving DecidableEq

/-- The signature-resolution loops of `DecodeTransaction`: rebuild each
signature from its canonical form and replace its address by
`signers[sig.SignerIndex]`; an index outside the signer list panics. -/
def resolveSigs (signers : List Address)
    (l : List transactionSignatureCanonicalForm) : Option (List TransactionSignature) :=
  mapMOpt
    (fun cf =>
      let s := transactionSignatureFromCanonicalForm cf
      match goIndex signers s.SignerIndex with
      | none => none
      | some a => some { s with Address := a })
    l

/-- The payload-field reconstruction inside `DecodeTransaction`
(`BytesToAddress`/`BytesToID` are the identity in this model, and the Go
`int(...)` conversions wrap). -/
def rebuildTransaction (pl : payloadCanonicalForm) : Transaction :=
  { Script := pl.Script
    Arguments := pl.Arguments
    ReferenceBlockID := pl.ReferenceBlockID
    GasLimit := pl.GasLimit
    ProposalKey :=
      { Address := pl.ProposalKeyAddress
        KeyIndex := intOfUint pl.ProposalKeyIndex
        SequenceNumber := pl.ProposalKeySequenceNumber }
    Payer := pl.Payer
    Authorizers := pl.Authorizers
    PayloadSignatures := []
    EnvelopeSignatures := [] }

/-- `DecodeTransaction` from the source: decode the canonical form,
rebuild the payload fields, derive the signer list from them, then
translate both signature sequences from index form back to address form.
(The final nil-ing of empty `Arguments`/`Script` is the identity here,
empty list and nil both being `[]`.) -/
def DecodeTransaction (it : RLPItem) : DResult :=
  match decodeTransactionCF it with
  | none => .err
  | some temp =>
    let t := rebuildTransaction temp.Payload
    let signers := signerList t
    match resolveSigs signers temp.PayloadSignatures with
    | none => .panic
    | some psigs =>
      match resolveSigs signers temp.EnvelopeSignatures with
      | none => .panic
      | some esigs =>
        .ok { t with PayloadSignatures := psigs, EnvelopeSignatures := esigs }

theorem uintOfInt_lt (i : Int) : uintOfInt i < 2 ^ 64 := by
  unfold uintOfInt
  have hm : i.emod (2 ^ 64) = i % (2 ^ 64) := rfl
  have e1 : (2:Int) ^ 64 = 18446744073709551616 := by norm_num
  have e2 : (2:Nat) ^ 64 = 18446744073709551616 := by norm_num
  rw [hm, e1, e2]
  omega

theorem decodeUintItem_natBE (n : Nat) (h : n < 2 ^ 64) :
    decodeUintItem (.str (natBE n)) = some n := by
  have hlen : (natBE n).length ≤ 8 := natBE_length 8 n (by norm_num at h ⊢; omega)
  simp only [decodeUintItem]
  rw [if_pos ⟨hlen, natBE_no_leading_zero n⟩, beNat_natBE]

theorem decodeStrList_map (l : List (List Nat)) :
    decodeStrList (.list (l.map RLPItem.str)) = some l := by
  simp only [decodeStrList]
  exact mapMOpt_roundtrip l fun x _ => rfl

theorem decodePayloadItemCF_payloadItem (p : payloadCanonicalForm)
    (hgas : p.GasLimit < 2 ^ 64) (hpki : p.ProposalKeyIndex < 2 ^ 64)
    (hseq : p.ProposalKeySequenceNumber < 2 ^ 64) :
    decodePayloadItemCF (payloadItem p) = some p := by
  simp only [payloadItem, decodePayloadItemCF, decodeStr, decodeStrList_map,
    decodeUintItem_natBE _ hgas, decodeUintItem_natBE _ hpki,
    decodeUintItem_natBE _ hseq]

theorem decodeSigCF_sigItem (s : transactionSignatureCanonicalForm)
    (hsi : s.SignerIndex < 2 ^ 64) (hki : s.KeyIndex < 2 ^ 64) :
    decodeSigCF (sigItem s) = some s := by
  simp only [sigItem, decodeSigCF, decodeStr,
    decodeUintItem_natBE _ hsi, decodeUintItem_natBE _ hki]

theorem decodeSigListCF_map (l : List TransactionSignature) :
    decodeSigListCF (.list ((signaturesListCanonicalForm l).map sigItem)) =
      some (signaturesListCanonicalForm l) := by
  unfold decodeSigListCF
  refine mapMOpt_roundtrip (signaturesListCanonicalForm l) fun x hx => ?_
  rcases List.mem_map.mp hx with ⟨s, _, rfl⟩
  exact decodeSigCF_sigItem _ (uintOfInt_lt _) (uintOfInt_lt _)

/-- The well-formedness the builder maintains on a fully signed
transaction: every stored signature's address is a recognized signer and
its cached signer index is fresh. -/
def wellIndexed (t : Transaction) : Prop :=
  ∀ s ∈ t.PayloadSignatures ++ t.EnvelopeSignatures,
    s.Address ∈ signerList t ∧ s.SignerIndex = lookupSignerIndex t s.Address

instance (t : Transaction) : Decidable (wellIndexed t) := by
  unfold wellIndexed; infer_instance

theorem firstIdx_get (l : List Address) (a : Address) :
    ∀ i : Nat, firstIdx a l = some i → l.get? i = some a := by
  induction l with
  | nil => intro i h; simp [firstIdx] at h
  | cons x l ih =>
    intro i h
    by_cases hx : x = a
    · simp only [firstIdx, hx, if_pos, ite_true, Option.some_inj] at h
      subst h
      simp [hx]
    · simp only [firstIdx, hx, ite_false, if_neg, Option.map_eq_some'] at h
      rcases h with ⟨j, hj, rfl⟩
      simpa using ih j hj

theorem mem_firstIdx_isSome (l : List Address) (a : Address) (h : a ∈ l) :
    ∃ i, firstIdx a l = some i := by
  induction l with
  | nil => simp at h
  | cons x l ih =>
    by_cases hx : x = a
    · exact ⟨0, by simp [firstIdx, hx]⟩
    · rcases List.mem_cons.mp h with rfl | h
      · exact absurd rfl hx
      · rcases ih h with ⟨i, hi⟩
        exact ⟨i + 1, by simp [firstIdx, hx, hi]⟩

theorem lookupSignerIndex_mem (t : Transaction) (a : Address)
    (h : a ∈ signerList t) :
    0 ≤ lookupSignerIndex t a ∧
      (signerList t).get? (lookupSignerIndex t a).toNat = some a := by
  obtain ⟨i, hi⟩ := mem_firstIdx_isSome _ a h
  have := firstIdx_get _ a i hi
  unfold lookupSignerIndex
  rw [hi]
  simpa using this

theorem resolveSigs_roundtrip (signers : List Address)
    (sigs : List TransactionSignature)
    (hlen : signers.length ≤ 2 ^ 63)
    (h : ∀ s ∈ sigs,
      (0 ≤ s.SignerIndex ∧ signers.get? s.SignerIndex.toNat = some s.Address) ∧
        -(2 ^ 63) ≤ s.KeyIndex ∧ s.KeyIndex < 2 ^ 63) :
    resolveSigs signers (signaturesListCanonicalForm sigs) = some sigs := by
  unfold resolveSigs signaturesListCanonicalForm
  refine mapMOpt_roundtrip sigs fun s hs => ?_
  obtain ⟨⟨hnn, hget⟩, hk1, hk2⟩ := h s hs
  obtain ⟨hi, hgeteq⟩ := List.get?_eq_some.mp hget
  have hsi : intOfUint (uintOfInt s.SignerIndex) = s.SignerIndex := by
    refine intOfUint_uintOfInt _ (by omega) ?_
    have : s.SignerIndex.toNat < 2 ^ 63 := by omega
    omega
  have hki : intOfUint (uintOfInt s.KeyIndex) = s.KeyIndex :=
    intOfUint_uintOfInt _ hk1 hk2
  simp only [transactionSignatureFromCanonicalForm, TransactionSignature.canonicalForm,
    hsi, hki, goIndex]
  rw [dif_pos ⟨hnn, hi⟩]
  simp only [Option.some_inj]
  cases s
  simp_all

theorem payloadCanonicalFormM_inv (t t2 : Transaction) (p : payloadCanonicalForm)
    (h : payloadCanonicalFormM t = some (t2, p)) :
    t2 = { t with Arguments := p.Arguments } ∧
      p = { Script := t.Script
            Arguments := p.Arguments
            ReferenceBlockID := t.ReferenceBlockID
            GasLimit := t.GasLimit
            ProposalKeyAddress := t.ProposalKey.Address
            ProposalKeyIndex := uintOfInt t.ProposalKey.KeyIndex
            ProposalKeySequenceNumber := t.ProposalKey.SequenceNumber
            Payer := t.Payer
            Authorizers := t.Authorizers } := by
  unfold payloadCanonicalFormM at h
  cases hargs : mapMOpt stripArg t.Arguments with
  | none => rw [hargs] at h; simp at h
  | some args =>
    rw [hargs] at h
    simp only [Option.some_inj, Prod.mk.injEq] at h
    obtain ⟨h1, h2⟩ := h
    subst h2
    subst h1
    exact ⟨rfl, rfl⟩

theorem rebuild_of_payload (t : Transaction) (p : payloadCanonicalForm)
    (hp : p = { Script := t.Script
                Arguments := p.Arguments
                ReferenceBlockID := t.ReferenceBlockID
                GasLimit := t.GasLimit
                ProposalKeyAddress := t.ProposalKey.Address
                ProposalKeyIndex := uintOfInt t.ProposalKey.KeyIndex
                ProposalKeySequenceNumber := t.ProposalKey.SequenceNumber
                Payer := t.Payer
                Authorizers := t.Authorizers })
    (hpk1 : -(2 ^ 63) ≤ t.ProposalKey.KeyIndex) (hpk2 : t.ProposalKey.KeyIndex < 2 ^ 63) :
    rebuildTransaction p =
      { t with Arguments := p.Arguments, PayloadSignatures := [], EnvelopeSignatures := [] } := by
  unfold rebuildTransaction
  rw [hp]
  simp only [intOfUint_uintOfInt _ hpk1 hpk2]

theorem signerList_rebuild (t : Transaction) (p : payloadCanonicalForm)
    (hp : p.ProposalKeyAddress = t.ProposalKey.Address) (hq : p.Payer = t.Payer)
    (ha : p.Authorizers = t.Authorizers) :
    signerList (rebuildTransaction p) = signerList t :=
  signerList_pure t (rebuildTransaction p) hp hq ha

/-- The observable content of a signature the spec compares after a
round trip: address, key index and signature bytes. -/
def sigObs (s : TransactionSignature) : Address × Int × List Nat :=
  (s.Address, s.KeyIndex, s.Signature)

theorem wellIndexed_resolve (t : Transaction) (sigs : List TransactionSignature)
    (hsub : ∀ s ∈ sigs, s ∈ t.PayloadSignatures ++ t.EnvelopeSignatures)
    (hwi : wellIndexed t)
    (hkeys : ∀ s ∈ t.PayloadSignatures ++ t.EnvelopeSignatures,
      -(2 ^ 63) ≤ s.KeyIndex ∧ s.KeyIndex < 2 ^ 63)
    (hslen : (signerList t).length ≤ 2 ^ 63) :
    resolveSigs (signerList t) (signaturesListCanonicalForm sigs) = some sigs := by
  refine resolveSigs_roundtrip (signerList t) sigs hslen fun s hs => ?_
  obtain ⟨hmem, hidx⟩ := hwi s (hsub s hs)
  obtain ⟨hnn, hget⟩ := lookupSignerIndex_mem t s.Address hmem
  exact ⟨⟨hidx ▸ hnn, hidx ▸ hget⟩, hkeys s (hsub s hs)⟩

theorem decodeTransactionCF_full (p : payloadCanonicalForm) (a b : RLPItem)
    (rest : List RLPItem) :
    decodeTransactionCF (.list (payloadItem p :: a :: b :: rest)) =
      match decodePayloadItemCF (payloadItem p) with
      | none => none
      | some p2 =>
        match decodeSigListCF a with
        | none => none
        | some ps =>
          match decodeSigListCF b with
          | none => none
          | some es =>
            some { Payload := p2, PayloadSignatures := ps, EnvelopeSignatures := es } := rfl

/-- C1 amended: for every encodable, well-indexed transaction, decoding
the bytes produced by `Encode` (the full form) yields a transaction equal
to the (post-encode) transaction in script, arguments, reference block
ID, gas limit, proposal key, payer, authorizers, and both signature
sequences compared by (address, key index, signature bytes).  The
numeric-range hypotheses are the invariants Go's `int`/`uint64` types
enforce; `wellIndexed` says every signature's address is a recognized
signer with a fresh cached index, as the builder maintains for a fully
signed transaction — without it the round trip can panic instead (see the
counterexample). -/
theorem encode_roundtrip_full (t t1 : Transaction) (it : RLPItem)
    (hgas : t.GasLimit < 2 ^ 64)
    (hseq : t.ProposalKey.SequenceNumber < 2 ^ 64)
    (hpk1 : -(2 ^ 63) ≤ t.ProposalKey.KeyIndex) (hpk2 : t.ProposalKey.KeyIndex < 2 ^ 63)
    (hkeys : ∀ s ∈ t.PayloadSignatures ++ t.EnvelopeSignatures,
      -(2 ^ 63) ≤ s.KeyIndex ∧ s.KeyIndex < 2 ^ 63)
    (hwi : wellIndexed t)
    (hslen : (signerList t).length ≤ 2 ^ 63)
    (henc : Encode t = some (t1, it)) :
    ∃ d : Transaction, DecodeTransaction it = DResult.ok d ∧
      d.Script = t1.Script ∧ d.Arguments = t1.Arguments ∧
      d.ReferenceBlockID = t1.ReferenceBlockID ∧ d.GasLimit = t1.GasLimit ∧
      d.ProposalKey = t1.ProposalKey ∧ d.Payer = t1.Payer ∧
      d.Authorizers = t1.Authorizers ∧
      d.PayloadSignatures.map sigObs = t1.PayloadSignatures.map sigObs ∧
      d.EnvelopeSignatures.map sigObs = t1.EnvelopeSignatures.map sigObs := by
  unfold Encode at henc
  cases hp : payloadCanonicalFormM t with
  | none => rw [hp] at henc; simp at henc
  | some pr =>
    obtain ⟨t2, p⟩ := pr
    rw [hp] at henc
    simp only [Option.some_inj, Prod.mk.injEq] at henc
    obtain ⟨ht2, hit⟩ := henc
    subst hit
    obtain ⟨ht2eq, hpeq⟩ := payloadCanonicalFormM_inv t t2 p hp
    have hdp : decodePayloadItemCF (payloadItem p) = some p := by
      refine decodePayloadItemCF_payloadItem p ?_ ?_ ?_
      · rw [hpeq]; exact hgas
      · rw [hpeq]; exact uintOfInt_lt _
      · rw [hpeq]; exact hseq
    have hsl : signerList (rebuildTransaction p) = signerList t :=
      signerList_rebuild t p (by rw [hpeq]) (by rw [hpeq]) (by rw [hpeq])
    have hrp : resolveSigs (signerList t) (signaturesListCanonicalForm t.PayloadSignatures) =
        some t.PayloadSignatures :=
      wellIndexed_resolve t _ (fun s hs => List.mem_append_left _ hs) hwi hkeys hslen
    have hre : resolveSigs (signerList t) (signaturesListCanonicalForm t.EnvelopeSignatures) =
        some t.EnvelopeSignatures :=
      wellIndexed_resolve t _ (fun s hs => List.mem_append_right _ hs) hwi hkeys hslen
    have hdt : decodeTransactionCF
        (.list [payloadItem p,
          .list ((signaturesListCanonicalForm t.PayloadSignatures).map sigItem),
          .list ((signaturesListCanonicalForm t.EnvelopeSignatures).map sigItem)]) =
        some { Payload := p
               PayloadSignatures := signaturesListCanonicalForm t.PayloadSignatures
               EnvelopeSignatures := signaturesListCanonicalForm t.EnvelopeSignatures } := by
      rw [decodeTransactionCF_full, hdp, decodeSigListCF_map, decodeSigListCF_map]
    have hfin : DecodeTransaction
        (.list [payloadItem p,
          .list ((signaturesListCanonicalForm t.PayloadSignatures).map sigItem),
          .list ((signaturesListCanonicalForm t.EnvelopeSignatures).map sigItem)]) =
        DResult.ok { rebuildTransaction p with
          PayloadSignatures := t.PayloadSignatures
          EnvelopeSignatures := t.EnvelopeSignatures } := by
      unfold DecodeTransaction
      rw [hdt]
      simp only [hsl, hrp, hre]
    refine ⟨_, hfin, ?_⟩
    have hreb := rebuild_of_payload t p hpeq hpk1 hpk2
    rw [hreb, ← ht2]
    rw [ht2eq]
    exact ⟨rfl, rfl, rfl, rfl, rfl, rfl, rfl, rfl, rfl⟩

/-- A sample 8-byte address. -/
def addrA : Address := [0, 0, 0, 0, 0, 0, 0, 1]

/-- A sample reference block identifier (all zero except the last byte). -/
def refBlockA : Identifier := List.replicate 31 0 ++ [1]

/-- A concrete fully signed transaction (the spec's round-trip scenario):
one signer `addrA` in all three roles, one payload and one envelope
signature. -/
def tFull : Transaction :=
  { Script := [1]
    Arguments := [[2]]
    ReferenceBlockID := refBlockA
    GasLimit := 42
    ProposalKey := { Address := addrA, KeyIndex := 0, SequenceNumber := 5 }
    Payer := addrA
    Authorizers := [addrA]
    PayloadSignatures := [{ Address := addrA, SignerIndex := 0, KeyIndex := 0, Signature := [9] }]
    EnvelopeSignatures := [{ Address := addrA, SignerIndex := 0, KeyIndex := 1, Signature := [7] }] }

/-- The item `Encode` produces for `tFull`. -/
def itFull : RLPItem :=
  .list
    [ .list [.str [1], .list [.str [2]], .str refBlockA, .str [42], .str addrA,
        .str [], .str [5], .str addrA, .list [.str addrA]]
    , .list [.list [.str [], .str [], .str [9]]]
    , .list [.list [.str [], .str [1], .str [7]]] ]

theorem encode_roundtrip_full_witness :
    Encode tFull = some (tFull, itFull) ∧
      ∃ d : Transaction, DecodeTransaction itFull = DResult.ok d ∧
        d.Script = tFull.Script ∧ d.Arguments = tFull.Arguments ∧
        d.ReferenceBlockID = tFull.ReferenceBlockID ∧ d.GasLimit = tFull.GasLimit ∧
        d.ProposalKey = tFull.ProposalKey ∧ d.Payer = tFull.Payer ∧
        d.Authorizers = tFull.Authorizers ∧
        d.PayloadSignatures.map sigObs = tFull.PayloadSignatures.map sigObs ∧
        d.EnvelopeSignatures.map sigObs = tFull.EnvelopeSignatures.map sigObs :=
  ⟨by decide,
    encode_roundtrip_full tFull tFull itFull (by decide) (by decide) (by decide)
      (by decide) (by decide) (by decide) (by decide) (by decide)⟩

theorem decodeTransactionCF_payload (p : payloadCanonicalForm) :
    decodeTransactionCF (payloadItem p) =
      match decodePayloadItemCF (payloadItem p) with
      | none => none
      | some p2 =>
        some { Payload := p2, PayloadSignatures := [], EnvelopeSignatures := [] } := rfl

theorem decodeTransactionCF_envelope (p : payloadCanonicalForm) (a : RLPItem) :
    decodeTransactionCF (.list [payloadItem p, a]) =
      match decodePayloadItemCF (payloadItem p) with
      | none => none
      | some p2 =>
        match decodeSigListCF a with
        | none => none
        | some ps =>
          some { Payload := p2, PayloadSignatures := ps, EnvelopeSignatures := [] } := rfl

/-- C8: decoding the bytes of `PayloadMessage` takes the payload-only
branch of the format sniffing (the first inner element is a byte string,
not a nested structure, so the whole buffer is re-read with the payload
field layout) and reconstructs the payload fields of the (post-encode)
transaction exactly, with empty signature sequences. -/
theorem payload_roundtrip (t t1 : Transaction) (it : RLPItem)
    (hgas : t.GasLimit < 2 ^ 64)
    (hseq : t.ProposalKey.SequenceNumber < 2 ^ 64)
    (hpk1 : -(2 ^ 63) ≤ t.ProposalKey.KeyIndex) (hpk2 : t.ProposalKey.KeyIndex < 2 ^ 63)
    (henc : PayloadMessage t = some (t1, it)) :
    (∃ bs rest, it = RLPItem.list (RLPItem.str bs :: rest)) ∧
      ∃ d : Transaction, DecodeTransaction it = DResult.ok d ∧
        d.Script = t1.Script ∧ d.Arguments = t1.Arguments ∧
        d.ReferenceBlockID = t1.ReferenceBlockID ∧ d.GasLimit = t1.GasLimit ∧
        d.ProposalKey = t1.ProposalKey ∧ d.Payer = t1.Payer ∧
        d.Authorizers = t1.Authorizers ∧
        d.PayloadSignatures = [] ∧ d.EnvelopeSignatures = [] := by
  unfold PayloadMessage at henc
  cases hp : payloadCanonicalFormM t with
  | none => rw [hp] at henc; simp at henc
  | some pr =>
    obtain ⟨t2, p⟩ := pr
    rw [hp] at henc
    simp only [Option.some_inj, Prod.mk.injEq] at henc
    obtain ⟨ht2, hit⟩ := henc
    subst hit
    obtain ⟨ht2eq, hpeq⟩ := payloadCanonicalFormM_inv t t2 p hp
    have hdp : decodePayloadItemCF (payloadItem p) = some p := by
      refine decodePayloadItemCF_payloadItem p ?_ ?_ ?_
      · rw [hpeq]; exact hgas
      · rw [hpeq]; exact uintOfInt_lt _
      · rw [hpeq]; exact hseq
    refine ⟨⟨p.Script, _, rfl⟩, ?_⟩
    have hfin : DecodeTransaction (payloadItem p) = DResult.ok (rebuildTransaction p) := by
      unfold DecodeTransaction
      rw [decodeTransactionCF_payload, hdp]
      rfl
    refine ⟨_, hfin, ?_⟩
    have hreb := rebuild_of_payload t p hpeq hpk1 hpk2
    rw [hreb, ← ht2, ht2eq]
    exact ⟨rfl, rfl, rfl, rfl, rfl, rfl, rfl, rfl, rfl⟩

theorem payload_roundtrip_witness :
    PayloadMessage tFull =
      some ({ tFull with Arguments := [[2]] },
        .list [.str [1], .list [.str [2]], .str refBlockA, .str [42], .str addrA,
          .str [], .str [5], .str addrA, .list [.str addrA]]) ∧
      ∃ d : Transaction,
        DecodeTransaction
          (.list [.str [1], .list [.str [2]], .str refBlockA, .str [42], .str addrA,
            .str [], .str [5], .str addrA, .list [.str addrA]]) = DResult.ok d ∧
        d.Script = ({ tFull with Arguments := [[2]] } : Transaction).Script ∧
        d.Arguments = ({ tFull with Arguments := [[2]] } : Transaction).Arguments ∧
        d.ReferenceBlockID = ({ tFull with Arguments := [[2]] } : Transaction).ReferenceBlockID ∧
        d.GasLimit = ({ tFull with Arguments := [[2]] } : Transaction).GasLimit ∧
        d.ProposalKey = ({ tFull with Arguments := [[2]] } : Transaction).ProposalKey ∧
        d.Payer = ({ tFull with Arguments := [[2]] } : Transaction).Payer ∧
        d.Authorizers = ({ tFull with Arguments := [[2]] } : Transaction).Authorizers ∧
        d.PayloadSignatures = [] ∧ d.EnvelopeSignatures = [] :=
  ⟨by decide,
    (payload_roundtrip tFull { tFull with Arguments := [[2]] }
      (.list [.str [1], .list [.str [2]], .str refBlockA, .str [42], .str addrA,
        .str [], .str [5], .str addrA, .list [.str addrA]])
      (by decide) (by decide) (by decide) (by decide) (by decide)).2⟩

/-- A variant of `tFull` with payload signatures only, as the payer sees
the transaction before signing the envelope. -/
def tEnvelope : Transaction := { tFull with EnvelopeSignatures := [] }

/-- C7 amended: for an encodable, well-indexed transaction with payload
signatures and no envelope signatures, decoding the bytes of
`EnvelopeMessage` reconstructs the payload fields plus the payload
signatures, with empty envelope signatures: exhausting the input after
the payload-signature sequence produces the envelope-form result instead
of an error.  As for C1, the range hypotheses are Go's type invariants
and `wellIndexed` is required: without it the decode can panic (see the
counterexample). -/
theorem envelope_roundtrip (t t1 : Transaction) (it : RLPItem)
    (hgas : t.GasLimit < 2 ^ 64)
    (hseq : t.ProposalKey.SequenceNumber < 2 ^ 64)
    (hpk1 : -(2 ^ 63) ≤ t.ProposalKey.KeyIndex) (hpk2 : t.ProposalKey.KeyIndex < 2 ^ 63)
    (hkeys : ∀ s ∈ t.PayloadSignatures ++ t.EnvelopeSignatures,
      -(2 ^ 63) ≤ s.KeyIndex ∧ s.KeyIndex < 2 ^ 63)
    (hwi : wellIndexed t)
    (hslen : (signerList t).length ≤ 2 ^ 63)
    (hne : t.PayloadSignatures ≠ [])
    (hee : t.EnvelopeSignatures = [])
    (henc : EnvelopeMessage t = some (t1, it)) :
    ∃ d : Transaction, DecodeTransaction it = DResult.ok d ∧
      d.Script = t1.Script ∧ d.Arguments = t1.Arguments ∧
      d.ReferenceBlockID = t1.ReferenceBlockID ∧ d.GasLimit = t1.GasLimit ∧
      d.ProposalKey = t1.ProposalKey ∧ d.Payer = t1.Payer ∧
      d.Authorizers = t1.Authorizers ∧
      d.PayloadSignatures.map sigObs = t1.PayloadSignatures.map sigObs ∧
      d.EnvelopeSignatures = [] := by
  unfold EnvelopeMessage at henc
  cases hp : payloadCanonicalFormM t with
  | none => rw [hp] at henc; simp at henc
  | some pr =>
    obtain ⟨t2, p⟩ := pr
    rw [hp] at henc
    simp only [Option.some_inj, Prod.mk.injEq] at henc
    obtain ⟨ht2, hit⟩ := henc
    subst hit
    obtain ⟨ht2eq, hpeq⟩ := payloadCanonicalFormM_inv t t2 p hp
    have hdp : decodePayloadItemCF (payloadItem p) = some p := by
      refine decodePayloadItemCF_payloadItem p ?_ ?_ ?_
      · rw [hpeq]; exact hgas
      · rw [hpeq]; exact uintOfInt_lt _
      · rw [hpeq]; exact hseq
    have hsl : signerList (rebuildTransaction p) = signerList t :=
      signerList_rebuild t p (by rw [hpeq]) (by rw [hpeq]) (by rw [hpeq])
    have hrp : resolveSigs (signerList t) (signaturesListCanonicalForm t.PayloadSignatures) =
        some t.PayloadSignatures :=
      wellIndexed_resolve t _ (fun s hs => List.mem_append_left _ hs) hwi hkeys hslen
    have hdt : decodeTransactionCF
        (.list [payloadItem p,
          .list ((signaturesListCanonicalForm t.PayloadSignatures).map sigItem)]) =
        some { Payload := p
               PayloadSignatures := signaturesListCanonicalForm t.PayloadSignatures
               EnvelopeSignatures := [] } := by
      rw [decodeTransactionCF_envelope, hdp, decodeSigListCF_map]
    have hfin : DecodeTransaction
        (.list [payloadItem p,
          .list ((signaturesListCanonicalForm t.PayloadSignatures).map sigItem)]) =
        DResult.ok { rebuildTransaction p with
          PayloadSignatures := t.PayloadSignatures
          EnvelopeSignatures := [] } := by
      unfold DecodeTransaction
      rw [hdt]
      simp only [hsl, hrp]
      rfl
    refine ⟨_, hfin, ?_⟩
    have hreb := rebuild_of_payload t p hpeq hpk1 hpk2
    rw [hreb, ← ht2, ht2eq]
    exact ⟨rfl, rfl, rfl, rfl, rfl, rfl, rfl, rfl, rfl⟩

theorem envelope_roundtrip_witness :
    EnvelopeMessage tEnvelope =
      some ({ tEnvelope with Arguments := [[2]] },
        .list [.list [.str [1], .list [.str [2]], .str refBlockA, .str [42], .str addrA,
          .str [], .str [5], .str addrA, .list [.str addrA]],
          .list [.list [.str [], .str [], .str [9]]]]) ∧
      ∃ d : Transaction,
        DecodeTransaction
          (.list [.list [.str [1], .list [.str [2]], .str refBlockA, .str [42], .str addrA,
            .str [], .str [5], .str addrA, .list [.str addrA]],
            .list [.list [.str [], .str [], .str [9]]]]) = DResult.ok d ∧
        d.Script = ({ tEnvelope with Arguments := [[2]] } : Transaction).Script ∧
        d.Arguments = ({ tEnvelope with Arguments := [[2]] } : Transaction).Arguments ∧
        d.ReferenceBlockID = ({ tEnvelope with Arguments := [[2]] } : Transaction).ReferenceBlockID ∧
        d.GasLimit = ({ tEnvelope with Arguments := [[2]] } : Transaction).GasLimit ∧
        d.ProposalKey = ({ tEnvelope with Arguments := [[2]] } : Transaction).ProposalKey ∧
        d.Payer = ({ tEnvelope with Arguments := [[2]] } : Transaction).Payer ∧
        d.Authorizers = ({ tEnvelope with Arguments := [[2]] } : Transaction).Authorizers ∧
        d.PayloadSignatures.map sigObs =
          ({ tEnvelope with Arguments := [[2]] } : Transaction).PayloadSignatures.map sigObs ∧
        d.EnvelopeSignatures = [] :=
  ⟨by decide,
    envelope_roundtrip tEnvelope { tEnvelope with Arguments := [[2]] }
      (.list [.list [.str [1], .list [.str [2]], .str refBlockA, .str [42], .str addrA,
        .str [], .str [5], .str addrA, .list [.str addrA]],
        .list [.list [.str [], .str [], .str [9]]]])
      (by decide) (by decide) (by decide) (by decide) (by decide) (by decide)
      (by decide) (by decide) (by decide) (by decide)⟩

theorem stripArg_nil : stripArg [] = none := rfl

theorem stripArg_some (a : List Nat) (c : Nat) (h : a.getLast? = some c) :
    stripArg a = if c = 10 then some a.dropLast else some a := by
  unfold stripArg
  rw [h]

theorem stripArg_isSome (a : List Nat) (h : a ≠ []) : (stripArg a).isSome := by
  unfold stripArg
  cases hl : a.getLast? with
  | none => exact absurd (List.getLast?_eq_none_iff.mp hl) h
  | some b => by_cases hb : b = 10 <;> simp [hb]

theorem payloadCanonicalFormM_none (t : Transaction) (h : ∃ a ∈ t.Arguments, a = []) :
    payloadCanonicalFormM t = none := by
  obtain ⟨a, ha, rfl⟩ := h
  unfold payloadCanonicalFormM
  rw [mapMOpt_eq_none t.Arguments [] ha stripArg_nil]

theorem payloadCanonicalFormM_isSome (t : Transaction) (h : ∀ a ∈ t.Arguments, a ≠ []) :
    (payloadCanonicalFormM t).isSome := by
  unfold payloadCanonicalFormM
  have := mapMOpt_isSome t.Arguments fun a ha => stripArg_isSome a (h a ha)
  cases hm : mapMOpt stripArg t.Arguments with
  | none => rw [hm] at this; simp at this
  | some args => rfl

/-- C10: an empty argument byte-string makes the canonical-form builder —
and with it all three encode entry points — panic on the out-of-range
access `arg[len(arg)-1]`; the trailing-newline inspection is total
exactly when every argument is non-empty. -/
theorem empty_argument_panics (t : Transaction) :
    ((∃ a ∈ t.Arguments, a = []) →
      payloadCanonicalFormM t = none ∧ PayloadMessage t = none ∧
        EnvelopeMessage t = none ∧ Encode t = none) ∧
      ((∀ a ∈ t.Arguments, a ≠ []) → (payloadCanonicalFormM t).isSome = true) := by
  constructor
  · intro h
    have hn := payloadCanonicalFormM_none t h
    refine ⟨hn, ?_, ?_, ?_⟩ <;>
      [unfold PayloadMessage; unfold EnvelopeMessage; unfold Encode] <;> rw [hn]
  · intro h
    exact payloadCanonicalFormM_isSome t h

/-- A transaction holding an empty argument. -/
def tEmptyArg : Transaction := { NewTransaction with Arguments := [[]] }

theorem empty_argument_panics_witness :
    Encode tEmptyArg = none ∧ (payloadCanonicalFormM tFull).isSome = true :=
  ⟨((empty_argument_panics tEmptyArg).1 ⟨[], by decide, rfl⟩).2.2.2,
    (empty_argument_panics tFull).2 (by decide)⟩

theorem mapMOpt_get {f : α → Option β} :
    ∀ l : List α, ∀ r : List β, mapMOpt f l = some r →
      r.length = l.length ∧
        ∀ (i : Nat) (a : α), l[i]? = some a → ∃ b, f a = some b ∧ r[i]? = some b := by
  intro l
  induction l with
  | nil =>
    intro r h
    simp only [mapMOpt, Option.some_inj] at h
    subst h
    exact ⟨rfl, by intro i a h; simp at h⟩
  | cons x l ih =>
    intro r h
    simp only [mapMOpt] at h
    cases hfx : f x with
    | none => rw [hfx] at h; simp at h
    | some b =>
      rw [hfx] at h
      cases hrest : mapMOpt f l with
      | none => rw [hrest] at h; simp at h
      | some bs =>
        rw [hrest] at h
        simp only [Option.some_inj] at h
        subst h
        obtain ⟨hlen, hidx⟩ := ih bs hrest
        refine ⟨by simp [hlen], ?_⟩
        intro i a hi
        cases i with
        | zero =>
          simp only [List.getElem?_cons_zero, Option.some_inj] at hi
          subst hi
          exact ⟨b, hfx, by simp⟩
        | succ j =>
          simp only [List.getElem?_cons_succ] at hi
          obtain ⟨c, hc1, hc2⟩ := hidx j a hi
          exact ⟨c, hc1, by simpa using hc2⟩

/-- C9: when the payload canonical form is built, each argument ending in
byte 10 loses exactly its last byte, an argument not ending in byte 10 is
unchanged, and the single-byte argument `[10]` becomes empty; the change
is applied in place (the returned transaction carries the same stripped
arguments the form snapshots). -/
theorem strip_trailing_newline (t t1 : Transaction) (cf : payloadCanonicalForm)
    (h : payloadCanonicalFormM t = some (t1, cf)) :
    t1.Arguments = cf.Arguments ∧
      cf.Arguments.length = t.Arguments.length ∧
      ∀ (i : Nat) (a : List Nat), t.Arguments[i]? = some a →
        (a.getLast? = some 10 → cf.Arguments[i]? = some a.dropLast) ∧
          (a.getLast? ≠ some 10 → cf.Arguments[i]? = some a) ∧
          (a = [10] → cf.Arguments[i]? = some []) := by
  unfold payloadCanonicalFormM at h
  cases hm : mapMOpt stripArg t.Arguments with
  | none => rw [hm] at h; simp at h
  | some args =>
    rw [hm] at h
    simp only [Option.some_inj, Prod.mk.injEq] at h
    obtain ⟨h1, h2⟩ := h
    have hcf : cf.Arguments = args := by rw [← h2]
    have ht1 : t1.Arguments = args := by rw [← h1]
    obtain ⟨hlen, hidx⟩ := mapMOpt_get t.Arguments args hm
    refine ⟨by rw [hcf, ht1], by rw [hcf, hlen], ?_⟩
    intro i a hi
    obtain ⟨b, hb1, hb2⟩ := hidx i a hi
    rw [hcf]
    refine ⟨?_, ?_, ?_⟩
    · intro hlast
      rw [stripArg_some a 10 hlast, if_pos rfl] at hb1
      simp only [Option.some_inj] at hb1
      rw [← hb1] at hb2
      exact hb2
    · intro hlast
      cases hl : a.getLast? with
      | none =>
        unfold stripArg at hb1
        rw [hl] at hb1
        simp at hb1
      | some c =>
        have hc : c ≠ 10 := fun hcc => hlast (hcc ▸ hl)
        rw [stripArg_some a c hl, if_neg hc] at hb1
        simp only [Option.some_inj] at hb1
        rw [← hb1] at hb2
        exact hb2
    · intro ha
      subst ha
      rw [stripArg_some [10] 10 (by decide), if_pos rfl] at hb1
      simp only [Option.some_inj] at hb1
      rw [← hb1] at hb2
      simpa using hb2

/-- A transaction exercising the three stripping cases. -/
def tStrip : Transaction := { NewTransaction with Arguments := [[1, 10], [2], [10]] }

/-- `tStrip` after the in-place stripping. -/
def tStripRes : Transaction := { tStrip with Arguments := [[1], [2], []] }

/-- The canonical payload form of `tStrip`. -/
def cfStrip : payloadCanonicalForm :=
  { Script := []
    Arguments := [[1], [2], []]
    ReferenceBlockID := List.replicate 32 0
    GasLimit := 9999
    ProposalKeyAddress := EmptyAddress
    ProposalKeyIndex := 0
    ProposalKeySequenceNumber := 0
    Payer := EmptyAddress
    Authorizers := [] }

theorem strip_trailing_newline_witness :
    cfStrip.Arguments[0]? = some [1] ∧ cfStrip.Arguments[1]? = some [2] ∧
      cfStrip.Arguments[2]? = some [] :=
  ⟨((strip_trailing_newline tStrip tStripRes cfStrip (by decide)).2.2 0 [1, 10]
      (by decide)).1 (by decide),
    ((strip_trailing_newline tStrip tStripRes cfStrip (by decide)).2.2 1 [2]
      (by decide)).2.1 (by decide),
    ((strip_trailing_newline tStrip tStripRes cfStrip (by decide)).2.2 2 [10]
      (by decide)).2.2 rfl⟩

/-- C4: `signerList` is the first-occurrence deduplication of the role
sequence proposer (when non-sentinel), payer (when non-sentinel), then
authorizers in insertion order; it has no duplicates; it is a pure
function of those three fields; a non-sentinel proposer heads the list,
and an address doubling as proposer and authorizer gets the single signer
index 0. -/
theorem signer_list_spec (t : Transaction) :
    signerList t = dedupFirst (rolesList t) ∧
      (signerList t).Nodup ∧
      (∀ s : Transaction, s.ProposalKey.Address = t.ProposalKey.Address →
        s.Payer = t.Payer → s.Authorizers = t.Authorizers →
          signerList s = signerList t) ∧
      (t.ProposalKey.Address ≠ EmptyAddress →
        ∃ l, signerList t = t.ProposalKey.Address :: l) ∧
      (t.ProposalKey.Address ≠ EmptyAddress → t.ProposalKey.Address ∈ t.Authorizers →
        lookupSignerIndex t t.ProposalKey.Address = 0) :=
  ⟨signerList_eq_dedupFirst t, signerList_nodup t,
    fun s h1 h2 h3 => signerList_pure t s h1 h2 h3,
    signerList_head t,
    fun h _ => lookupSignerIndex_proposer t h⟩

theorem signer_list_spec_witness :
    signerList tFull = dedupFirst (rolesList tFull) ∧
      lookupSignerIndex tFull tFull.ProposalKey.Address = 0 :=
  ⟨(signer_list_spec tFull).1, (signer_list_spec tFull).2.2.2.2 (by decide) (by decide)⟩

/-- A transaction whose only authorizer is the sentinel address, with
sentinel proposer and payer. -/
def tSentinel : Transaction := { NewTransaction with Authorizers := [EmptyAddress] }

/-- C6 counterexample: the sentinel-skip rule is not applied to
authorizers — a sentinel authorizer lands in the signer list. -/
theorem sentinel_authorizer_cex :
    EmptyAddress ∈ tSentinel.Authorizers ∧ EmptyAddress ∈ signerList tSentinel := by
  decide

/-- C6 amended: the sentinel check guards only the proposer and payer;
each authorizer is added unconditionally (subject only to first-occurrence
deduplication), so a sentinel authorizer always appears in `signerList`
(the proposer/payer steps can never have inserted the sentinel first). -/
theorem sentinel_authorizer_included (t : Transaction)
    (h : EmptyAddress ∈ t.Authorizers) : EmptyAddress ∈ signerList t := by
  rw [signerList_eq_dedupFirst]
  have hr : EmptyAddress ∈ rolesList t := by
    unfold rolesList
    simp [h]
  exact mem_dedupFirstAux (rolesList t) [] EmptyAddress hr (by simp)

theorem sentinel_authorizer_included_witness : EmptyAddress ∈ signerList tSentinel :=
  sentinel_authorizer_included tSentinel (by decide)

theorem lookupSignerIndex_congr (t1 t2 : Transaction)
    (h : signerList t1 = signerList t2) :
    lookupSignerIndex t1 = lookupSignerIndex t2 := by
  funext a
  unfold lookupSignerIndex
  rw [h]

/-- C5 amended: immediately after a signature insertion the inserted-into
sequence is sorted by `(SignerIndex, KeyIndex)` — provided the existing
signatures' cached indices are fresh, which every mutator re-establishes.
(The subsequent signer-set mutators re-derive indices without re-sorting,
so sortedness is not preserved in general; see the counterexample.) -/
theorem add_signature_sorted (t : Transaction) (a : Address) (k : Int)
    (sig : List Nat) (h : freshIndices t) :
    List.Pairwise sigLE ((AddPayloadSignature t a k sig).PayloadSignatures) ∧
      List.Pairwise sigLE ((AddEnvelopeSignature t a k sig).EnvelopeSignatures) := by
  constructor
  · unfold AddPayloadSignature refreshSignerIndex
    simp only
    set s := createSignature t a k sig with hs
    set L := sortSignatures (t.PayloadSignatures ++ [s]) with hL
    have hpure : signerList { t with PayloadSignatures := L } = signerList t :=
      signerList_pure t _ rfl rfl rfl
    have hlook := lookupSignerIndex_congr { t with PayloadSignatures := L } t hpure
    rw [hlook]
    have hfreshL : ∀ x ∈ L, x.SignerIndex = lookupSignerIndex t x.Address := by
      intro x hx
      have hxmem : x ∈ t.PayloadSignatures ++ [s] :=
        (List.perm_insertionSort sigLE _).subset hx
      rcases List.mem_append.mp hxmem with hx1 | hx2
      · exact h.1 x hx1
      · have : x = s := by simpa using hx2
        subst this
        rfl
    rw [refresh_preserves_fresh_list t L hfreshL]
    exact List.sorted_insertionSort sigLE _
  · unfold AddEnvelopeSignature refreshSignerIndex
    simp only
    set s := createSignature t a k sig with hs
    set L := sortSignatures (t.EnvelopeSignatures ++ [s]) with hL
    have hpure : signerList { t with EnvelopeSignatures := L } = signerList t :=
      signerList_pure t _ rfl rfl rfl
    have hlook := lookupSignerIndex_congr { t with EnvelopeSignatures := L } t hpure
    rw [hlook]
    have hfreshL : ∀ x ∈ L, x.SignerIndex = lookupSignerIndex t x.Address := by
      intro x hx
      have hxmem : x ∈ t.EnvelopeSignatures ++ [s] :=
        (List.perm_insertionSort sigLE _).subset hx
      rcases List.mem_append.mp hxmem with hx1 | hx2
      · exact h.2 x hx1
      · have : x = s := by simpa using hx2
        subst this
        rfl
    rw [refresh_preserves_fresh_list t L hfreshL]
    exact List.sorted_insertionSort sigLE _

/-- A second sample 8-byte address. -/
def addrB : Address := [0, 0, 0, 0, 0, 0, 0, 2]

/-- Two authorizers, no signatures yet. -/
def tTwoAuth : Transaction := AddAuthorizer (AddAuthorizer NewTransaction addrA) addrB

theorem add_signature_sorted_witness :
    freshIndices tTwoAuth ∧
      (List.Pairwise sigLE ((AddPayloadSignature tTwoAuth addrA 0 [9]).PayloadSignatures) ∧
        List.Pairwise sigLE ((AddEnvelopeSignature tTwoAuth addrA 0 [9]).EnvelopeSignatures)) :=
  ⟨by decide, add_signature_sorted tTwoAuth addrA 0 [9] (by decide)⟩

/-- Signatures for both authorizers, then a proposer change that reverses
the two signer indices: `refreshSignerIndex` re-derives the indices but
does not re-sort. -/
def tUnsorted : Transaction :=
  SetProposalKey
    (AddPayloadSignature (AddPayloadSignature tTwoAuth addrA 0 [9]) addrB 0 [8])
    addrB 0 0

/-- C5 counterexample: after `SetProposalKey` the payload-signature
sequence is no longer sorted by `(SignerIndex, KeyIndex)`. -/
theorem sorted_after_mutation_cex :
    ¬ List.Pairwise sigLE tUnsorted.PayloadSignatures := by decide

/-- A transaction holding a payload signature whose address (`addrB`) is
not a recognized signer, so its signer index is `-1`. -/
def tNeg : Transaction :=
  { NewTransaction with
    Payer := addrA
    PayloadSignatures :=
      [{ Address := addrB, SignerIndex := -1, KeyIndex := 0, Signature := [9] }] }

/-- C2: the precondition failure the spec mandates does not exist in the
code.  Evaluating the encode path at the failing input `tNeg` (a payload
signature with signer index `-1`): the envelope and full canonical forms
are still built, `EnvelopeMessage`/`Encode` succeed, and the Go `uint`
conversion silently turns `-1` into `2^64 - 1` in the output. -/
theorem negative_index_cex :
    (envelopeCanonicalFormM tNeg).isSome = true ∧
      (EnvelopeMessage tNeg).isSome = true ∧ (Encode tNeg).isSome = true ∧
      (TransactionSignature.canonicalForm
        { Address := addrB, SignerIndex := -1, KeyIndex := 0,
          Signature := [9] }).SignerIndex = 18446744073709551615 := by
  decide

/-- Supporting theorem: building the canonical forms never checks signer
indices.  Whenever every argument is non-empty (so the builder does not
panic), `EnvelopeMessage` and `Encode` succeed regardless of signature
indices, and each signature's signer index is coerced modulo `2^64` into
the canonical form (so `-1` becomes `2^64 - 1`). -/
theorem negative_index_coerced (t : Transaction)
    (h : ∀ a ∈ t.Arguments, a ≠ []) :
    (envelopeCanonicalFormM t).isSome = true ∧
      (EnvelopeMessage t).isSome = true ∧ (Encode t).isSome = true ∧
      ∀ s : TransactionSignature,
        (TransactionSignature.canonicalForm s).SignerIndex =
          (s.SignerIndex.emod (2 ^ 64)).toNat := by
  have hp := payloadCanonicalFormM_isSome t h
  cases hm : payloadCanonicalFormM t with
  | none => rw [hm] at hp; simp at hp
  | some pr =>
    obtain ⟨t1, p⟩ := pr
    refine ⟨?_, ?_, ?_, fun s => rfl⟩ <;>
      [unfold envelopeCanonicalFormM; unfold EnvelopeMessage; unfold Encode] <;>
        rw [hm] <;> rfl

theorem negative_index_coerced_witness :
    (Encode tNeg).isSome = true ∧
      (TransactionSignature.canonicalForm
        { Address := addrB, SignerIndex := -1, KeyIndex := 0,
          Signature := [9] }).SignerIndex = ((-1 : Int).emod (2 ^ 64)).toNat :=
  ⟨(negative_index_coerced tNeg (by decide)).2.2.1,
    (negative_index_coerced tNeg (by decide)).2.2.2
      { Address := addrB, SignerIndex := -1, KeyIndex := 0, Signature := [9] }⟩

/-- A transaction whose payload signature carries signer index 0 while
the derived signer list is empty (proposer, payer sentinel; no
authorizers). -/
def tOrphan : Transaction :=
  { NewTransaction with
    GasLimit := 0
    PayloadSignatures :=
      [{ Address := addrA, SignerIndex := 0, KeyIndex := 0, Signature := [9] }] }

/-- The item `Encode` produces for `tOrphan`. -/
def itOrphan : RLPItem :=
  .list
    [ .list [.str [], .list [], .str (List.replicate 32 0), .str [], .str EmptyAddress,
        .str [], .str [], .str EmptyAddress, .list []]
    , .list [.list [.str [], .str [], .str [9]]]
    , .list [] ]

/-- The item `Encode` produces for `tNeg` (signer index `-1` wrapped to
eight `255` bytes). -/
def itNeg : RLPItem :=
  .list
    [ .list [.str [], .list [], .str (List.replicate 32 0), .str [39, 15], .str EmptyAddress,
        .str [], .str [], .str addrA, .list []]
    , .list [.list [.str (List.replicate 8 255), .str [], .str [9]]]
    , .list [] ]

/-- C1 counterexample: for the transaction `tNeg`, whose payload
signature's address is not a recognized signer (signer index `-1`),
`Encode` succeeds but `DecodeTransaction` of its output panics instead of
reconstructing the transaction — the unqualified round-trip claim fails. -/
theorem roundtrip_claim_cex :
    Encode tNeg = some (tNeg, itNeg) ∧ DecodeTransaction itNeg = DResult.panic := by
  decide

/-- The item `EnvelopeMessage` produces for `tNeg` (payload plus the one
payload signature, signer index `-1` wrapped to eight `255` bytes). -/
def itNegEnv : RLPItem :=
  .list
    [ .list [.str [], .list [], .str (List.replicate 32 0), .str [39, 15], .str EmptyAddress,
        .str [], .str [], .str addrA, .list []]
    , .list [.list [.str (List.replicate 8 255), .str [], .str [9]]] ]

/-- C7 counterexample: `tNeg` has exactly one payload signature and no
envelope signatures, so it is inside the claim's quantifier, yet decoding
the bytes of `EnvelopeMessage tNeg` panics (the wrapped `-1` signer index
has no entry in the derived signer list) instead of reconstructing the
transaction — the unqualified claim fails. -/
theorem envelope_roundtrip_cex :
    tNeg.PayloadSignatures.length = 1 ∧ tNeg.EnvelopeSignatures = [] ∧
      EnvelopeMessage tNeg = some (tNeg, itNegEnv) ∧
      DecodeTransaction itNegEnv = DResult.panic := by
  decide

/-- C3: a decoded signer index with no entry in the freshly derived
signer list does not produce a decode error — `signers[sig.SignerIndex]`
panics (index out of range), modelled by `DResult.panic`.  The input is
itself produced by `Encode`. -/
theorem orphan_signer_index_panics :
    Encode tOrphan = some (tOrphan, itOrphan) ∧
      DecodeTransaction itOrphan = DResult.panic := by decide

end Flow
